import Mathlib

/-!
Verification of the `irc_parser` crate (`src/lib.rs`), a parser for one raw
line of an IRC-family protocol message with IRCv3 message tags.

The embedding works at the UTF-8 byte level: an input string is a `List Nat`
of its bytes.  Every delimiter the code searches for (`'@'` = 64, `' '` = 32,
`':'` = 58, `';'` = 59, `'='` = 61, `'!'` = 33) is a single ASCII byte, and
ASCII bytes never occur inside a multi-byte UTF-8 character, so `str::find`,
`str::split` and byte slicing in the Rust source correspond exactly to index
search, splitting and `take`/`drop` on the byte list.  Rust panics
(`Option::unwrap` on `None` in the tag loop, and string slicing at a
non-character-boundary index in the parameter loop) are modelled explicitly
by the `ParseResult.panicked` outcome.
-/

/-- Byte value of an ASCII string: for ASCII characters the Unicode code
point equals the single UTF-8 byte.  Used only on ASCII literals. -/
def asciiBytes (s : String) : List Nat :=
  s.data.map Char.toNat

/-- `u8::is_ascii_whitespace` from Rust: space, tab, newline, form feed,
carriage return. -/
def isAsciiWhitespace (b : Nat) : Bool :=
  b == 32 || b == 9 || b == 10 || b == 12 || b == 13

/-- A UTF-8 continuation byte (0x80–0xBF).  Rust string slicing panics when
the boundary index points at such a byte (`is_char_boundary` fails). -/
def isContinuationByte (b : Nat) : Bool :=
  128 ≤ b && b < 192

/-- `str::find` on a single-byte (ASCII) pattern: index of the first byte
satisfying `p`, or `none`. -/
def findByte (p : Nat → Bool) : List Nat → Option Nat
  | [] => none
  | a :: as => if p a then some 0 else (findByte p as).map (· + 1)

/-- `str::split` on a single-byte (ASCII) pattern: splits at every byte
satisfying `p`, keeping empty segments, always at least one segment. -/
def splitOnPred (p : Nat → Bool) : List Nat → List (List Nat)
  | [] => [[]]
  | a :: as =>
    if p a then [] :: splitOnPred p as
    else
      match splitOnPred p as with
      | [] => [[a]]
      | l :: ls => (a :: l) :: ls

/-- `str::split_ascii_whitespace`: split at ASCII whitespace and drop the
empty segments, i.e. the maximal non-whitespace runs. -/
def splitAsciiWhitespace (l : List Nat) : List (List Nat) :=
  (splitOnPred isAsciiWhitespace l).filter (fun x => !x.isEmpty)

/-- `enum Prefix { Servername(String), Nick(String, String, String) }` from
the source (`Prefix` itself is not a legal Lean identifier here). -/
inductive Pfx where
  | servername : List Nat → Pfx
  | nick : List Nat → List Nat → List Nat → Pfx
deriving DecidableEq

/-- The tag map: `HashMap<String, Option<String>>` in the source, modelled
as the association list of entries in input order. -/
abbrev Tags := List (List Nat × Option (List Nat))

/-- `struct Message` from the source.  The Rust field `prefix` is named
`pfx` here. -/
structure Message where
  tags : Option Tags
  pfx : Option Pfx
  command : Option (List Nat)
  params : Option (List (List Nat))
deriving DecidableEq

/-- The two `&'static str` errors of `Message::parse`:
"Nothing found to parse" and "No command found". -/
inductive ParseError where
  | emptyInput
  | missingCommand
deriving DecidableEq

/-- Outcome of a call to `Message::parse`: `Ok`, `Err`, or a Rust panic. -/
inductive ParseResult where
  | ok : Message → ParseResult
  | err : ParseError → ParseResult
  | panicked : ParseResult
deriving DecidableEq

/-- One tag entry (lines 73–82 of the source): `kv.split('=')`, then
`kv.next().unwrap()` twice.  The split is at EVERY `'='`, and the second
`next()` yields the piece between the first and second `'='` — so for an
entry with no `'='` the second `next()` is `None` and the `unwrap` panics
(modelled as `none`), and for `key=a=b` the stored value is `a`, not `a=b`.
An empty raw value is normalised to an absent value. -/
def parseTagEntry (kv : List Nat) : Option (List Nat × Option (List Nat)) :=
  match splitOnPred (fun b => b == 61) kv with
  | [] => none
  | [_] => none
  | k :: v :: _ => some (k, if v.isEmpty then none else some v)

/-- Left-to-right collection of the tag entries; the first panicking entry
aborts the whole parse, as iterator `collect` does in Rust. -/
def parseTagEntries : List (List Nat) → Option Tags
  | [] => some []
  | kv :: rest =>
    match parseTagEntry kv with
    | none => none
    | some e =>
      match parseTagEntries rest with
      | none => none
      | some es => some (e :: es)

/-- The tag block decoder (lines 70–84): `tags[1..].split(';')`, then each
entry is processed by `parseTagEntry`. -/
def parseTags (tagBlock : List Nat) : Option Tags :=
  parseTagEntries (splitOnPred (fun b => b == 59) (tagBlock.drop 1))

/-- The prefix decoder (lines 97–107): `prefix[1..]` split at `'!'` or
`'@'`; 1 part gives `Servername`, 3 parts give `Nick`, anything else gives
no prefix. -/
def parsePfx (pfxBlock : List Nat) : Option Pfx :=
  match splitOnPred (fun b => b == 33 || b == 64) (pfxBlock.drop 1) with
  | [s] => some (.servername s)
  | [n, u, h] => some (.nick n u h)
  | _ => none

/-- The parameter-string decoder (lines 118–138).  `params_string.find(':')`:
at position 0 the rest after the colon is the single param; at a later
position `loc` the code slices `params_string[..loc - 1]` — which panics when
the byte at `loc - 1` is a UTF-8 continuation byte — splits that on ASCII
whitespace and appends the rest after the colon verbatim; with no colon the
whole string is split on ASCII whitespace.  `none` models the panic. -/
def parseParams (ps : List Nat) : Option (List (List Nat)) :=
  match findByte (fun b => b == 58) ps with
  | some 0 => some [ps.drop 1]
  | some (l + 1) =>
    if isContinuationByte (ps.getD l 0) then none
    else some (splitAsciiWhitespace (ps.take l) ++ [ps.drop (l + 2)])
  | none => some (splitAsciiWhitespace ps)

/-- The command/params stage (lines 112–143): no space means the whole
remainder is the command and `params` stays `None`; otherwise the part
before the first space is the command and the rest is decoded by
`parseParams`. -/
def commandParams (t : Option Tags) (p : Option Pfx) (cap : List Nat) :
    ParseResult :=
  match findByte (fun b => b == 32) cap with
  | none => .ok ⟨t, p, some cap, none⟩
  | some i =>
    match parseParams (cap.drop (i + 1)) with
    | none => .panicked
    | some params => .ok ⟨t, p, some (cap.take i), some params⟩

/-- Outcome of the tag or prefix stage: continue with a value, fail with
"No command found", or panic. -/
inductive StageResult (α : Type) where
  | next : α → StageResult α
  | missingCommand : StageResult α
  | panicked : StageResult α

/-- The tag stage (lines 62–87): when the input starts with `'@'`, the part
up to the first space is the tag block and the cursor moves past that
space; no space at all is the "No command found" error. -/
def tagsStage (message : List Nat) : StageResult (Option Tags × List Nat) :=
  if message.head? = some 64 then
    match findByte (fun b => b == 32) message with
    | none => .missingCommand
    | some i =>
      match parseTags (message.take i) with
      | none => .panicked
      | some t => .next (some t, message.drop (i + 1))
  else .next (none, message)

/-- The prefix stage (lines 89–110): when the remaining input starts with
`':'`, the part up to the next space is the prefix block and the cursor
moves past that space; no space is the "No command found" error. -/
def pfxStage (rest : List Nat) : StageResult (Option Pfx × List Nat) :=
  if rest.head? = some 58 then
    match findByte (fun b => b == 32) rest with
    | none => .missingCommand
    | some i => .next (parsePfx (rest.take i), rest.drop (i + 1))
  else .next (none, rest)

/-- `Message::parse` (lines 53–146): empty-input check, tag stage, prefix
stage, command/params stage. -/
def parse (message : List Nat) : ParseResult :=
  if message.isEmpty then .err .emptyInput
  else
    match tagsStage message with
    | .missingCommand => .err .missingCommand
    | .panicked => .panicked
    | .next (t, rest) =>
      match pfxStage rest with
      | .missingCommand => .err .missingCommand
      | .panicked => .panicked
      | .next (p, cap) => commandParams t p cap

/-- The prefix arity rule as the specification words it: split the block
(without its leading colon) at `'!'`/`'@'`; exactly 1 part is a server
name, exactly 3 parts are nick/user/host, anything else is no prefix. -/
def pfxSpec (block : List Nat) : Option Pfx :=
  let parts := splitOnPred (fun b => b == 33 || b == 64) block
  if parts.length = 1 then some (.servername (parts.getD 0 []))
  else if parts.length = 3 then
    some (.nick (parts.getD 0 []) (parts.getD 1 []) (parts.getD 2 []))
  else none

-- Sanity checks against the crate's own test suite.
example :
    parse (asciiBytes ":715209!715209@715209.tmi.twitch.tv PRIVMSG #715209 :hello") =
      .ok ⟨none,
        some (.nick (asciiBytes "715209") (asciiBytes "715209")
          (asciiBytes "715209.tmi.twitch.tv")),
        some (asciiBytes "PRIVMSG"),
        some [asciiBytes "#715209", asciiBytes "hello"]⟩ := by decide

example :
    parse (asciiBytes "PING :tmi.twitch.tv") =
      .ok ⟨none, none, some (asciiBytes "PING"), some [asciiBytes "tmi.twitch.tv"]⟩ := by
  decide

example : parse (asciiBytes "PRIVMSG") =
    .ok ⟨none, none, some (asciiBytes "PRIVMSG"), none⟩ := by decide

example : parse [] = .err .emptyInput := by decide

example : parse (asciiBytes "@id=abc") = .err .missingCommand := by decide

example :
    parse (asciiBytes "@flag=;id=abc :server.example COMMAND") =
      .ok ⟨some [(asciiBytes "flag", none), (asciiBytes "id", some (asciiBytes "abc"))],
        some (.servername (asciiBytes "server.example")),
        some (asciiBytes "COMMAND"), none⟩ := by decide

-- ### Helper lemmas about the byte-list primitives

lemma findByte_append (p : Nat → Bool) (xs : List Nat) (b : Nat) (rest : List Nat)
    (hxs : ∀ a ∈ xs, p a = false) (hb : p b = true) :
    findByte p (xs ++ b :: rest) = some xs.length := by
  induction xs with
  | nil => simp [findByte, hb]
  | cons a as ih =>
    have ha : p a = false := hxs a (List.mem_cons_self a as)
    simp [findByte, ha, ih (fun x hx => hxs x (List.mem_cons_of_mem a hx))]

lemma findByte_take (p : Nat → Bool) (ps : List Nat) (n : Nat)
    (h : findByte p ps = some n) : ∀ a ∈ ps.take n, p a = false := by
  induction ps generalizing n with
  | nil => simp [findByte] at h
  | cons x xs ih =>
    cases hx : p x with
    | true =>
      simp [findByte, hx] at h
      subst h
      simp
    | false =>
      simp [findByte, hx] at h
      obtain ⟨m, hm, rfl⟩ := h
      intro a ha
      rw [List.take_succ_cons] at ha
      rcases List.mem_cons.mp ha with rfl | ha
      · exact hx
      · exact ih m hm a ha

lemma findByte_none (p : Nat → Bool) (ps : List Nat) (h : findByte p ps = none) :
    ∀ a ∈ ps, p a = false := by
  induction ps with
  | nil => simp
  | cons x xs ih =>
    cases hx : p x with
    | true => simp [findByte, hx] at h
    | false =>
      simp [findByte, hx] at h
      intro a ha
      rcases List.mem_cons.mp ha with rfl | ha
      · exact hx
      · exact ih h a ha

lemma findByte_none_of_all (p : Nat → Bool) (ps : List Nat)
    (h : ∀ a ∈ ps, p a = false) : findByte p ps = none := by
  induction ps with
  | nil => rfl
  | cons x xs ih =>
    simp [findByte, h x (List.mem_cons_self x xs),
      ih (fun a ha => h a (List.mem_cons_of_mem x ha))]

lemma splitOnPred_ne_nil (p : Nat → Bool) (l : List Nat) : splitOnPred p l ≠ [] := by
  cases l with
  | nil => simp [splitOnPred]
  | cons a as =>
    unfold splitOnPred
    split
    · simp
    · split <;> simp

lemma mem_of_mem_splitOnPred (p : Nat → Bool) (l x : List Nat)
    (hx : x ∈ splitOnPred p l) : ∀ a ∈ x, a ∈ l := by
  induction l generalizing x with
  | nil =>
    simp [splitOnPred] at hx
    subst hx
    simp
  | cons c cs ih =>
    cases hc : p c with
    | true =>
      simp [splitOnPred, hc] at hx
      rcases hx with rfl | hx
      · simp
      · exact fun a ha => List.mem_cons_of_mem c (ih x hx a ha)
    | false =>
      rcases hsp : splitOnPred p cs with _ | ⟨l0, ls⟩
      · exact absurd hsp (splitOnPred_ne_nil p cs)
      · simp [splitOnPred, hc, hsp] at hx
        rcases hx with rfl | hx
        · intro a ha
          rcases List.mem_cons.mp ha with rfl | ha
          · exact List.mem_cons_self _ _
          · exact List.mem_cons_of_mem c
              (ih l0 (by rw [hsp]; exact List.mem_cons_self _ _) a ha)
        · intro a ha
          exact List.mem_cons_of_mem c
            (ih x (by rw [hsp]; exact List.mem_cons_of_mem l0 hx) a ha)

lemma not_p_of_mem_splitOnPred (p : Nat → Bool) (l x : List Nat)
    (hx : x ∈ splitOnPred p l) : ∀ a ∈ x, p a = false := by
  induction l generalizing x with
  | nil =>
    simp [splitOnPred] at hx
    subst hx
    simp
  | cons c cs ih =>
    cases hc : p c with
    | true =>
      simp [splitOnPred, hc] at hx
      rcases hx with rfl | hx
      · simp
      · exact ih x hx
    | false =>
      rcases hsp : splitOnPred p cs with _ | ⟨l0, ls⟩
      · exact absurd hsp (splitOnPred_ne_nil p cs)
      · simp [splitOnPred, hc, hsp] at hx
        rcases hx with rfl | hx
        · intro a ha
          rcases List.mem_cons.mp ha with rfl | ha
          · exact hc
          · exact ih l0 (by rw [hsp]; exact List.mem_cons_self _ _) a ha
        · exact ih x (by rw [hsp]; exact List.mem_cons_of_mem l0 hx)

lemma mem_splitAsciiWhitespace (l x : List Nat) (hx : x ∈ splitAsciiWhitespace l) :
    x ≠ [] ∧ ∀ a ∈ x, a ∈ l := by
  unfold splitAsciiWhitespace at hx
  have h1 := List.mem_filter.mp hx
  refine ⟨?_, mem_of_mem_splitOnPred _ _ _ h1.1⟩
  have := h1.2
  simp at this
  simpa using this

lemma mem_splitAsciiWhitespace_not_ws (l x : List Nat)
    (hx : x ∈ splitAsciiWhitespace l) : ∀ a ∈ x, isAsciiWhitespace a = false := by
  unfold splitAsciiWhitespace at hx
  exact not_p_of_mem_splitOnPred _ _ _ (List.mem_filter.mp hx).1

lemma splitAsciiWhitespace_of_all (l : List Nat)
    (h : ∀ a ∈ l, isAsciiWhitespace a = true) : splitAsciiWhitespace l = [] := by
  induction l with
  | nil => rfl
  | cons a as ih =>
    have ha := h a (List.mem_cons_self a as)
    unfold splitAsciiWhitespace at ih ⊢
    simp [splitOnPred, ha]
    simpa using ih (fun b hb => h b (List.mem_cons_of_mem a hb))

lemma mem_of_head?_eq (x : List Nat) (a : Nat) (h : x.head? = some a) : a ∈ x := by
  cases x with
  | nil => simp at h
  | cons b bs =>
    simp at h
    subst h
    exact List.mem_cons_self _ _

lemma dropLast_singleton_append (xs : List (List Nat)) (y : List Nat) :
    (xs ++ [y]).dropLast = xs := by simp

-- ### Structure lemmas about the parsing stages

lemma commandParams_ne_err (t : Option Tags) (p : Option Pfx) (cap : List Nat)
    (e : ParseError) : commandParams t p cap ≠ .err e := by
  intro h
  cases h1 : findByte (fun b => b == 32) cap with
  | none => simp [commandParams, h1] at h
  | some i =>
    cases h2 : parseParams (cap.drop (i + 1)) with
    | none => simp [commandParams, h1, h2] at h
    | some params => simp [commandParams, h1, h2] at h

lemma parse_ok_exists (input : List Nat) (msg : Message)
    (h : parse input = .ok msg) :
    ∃ t p cap, commandParams t p cap = .ok msg := by
  unfold parse at h
  split at h
  · simp at h
  · split at h
    · simp at h
    · simp at h
    · split at h
      · simp at h
      · simp at h
      · exact ⟨_, _, _, h⟩

lemma commandParams_ok_command (t : Option Tags) (p : Option Pfx)
    (cap : List Nat) (msg : Message) (h : commandParams t p cap = .ok msg) :
    msg.command.isSome = true := by
  cases h1 : findByte (fun b => b == 32) cap with
  | none =>
    simp only [commandParams, h1] at h
    simp only [ParseResult.ok.injEq] at h
    subst h
    rfl
  | some i =>
    cases h2 : parseParams (cap.drop (i + 1)) with
    | none => simp [commandParams, h1, h2] at h
    | some params =>
      simp only [commandParams, h1, h2] at h
      simp only [ParseResult.ok.injEq] at h
      subst h
      rfl

lemma commandParams_ok_params (t : Option Tags) (p : Option Pfx)
    (cap : List Nat) (msg : Message) (pl : List (List Nat))
    (h : commandParams t p cap = .ok msg) (hp : msg.params = some pl) :
    ∃ ps, parseParams ps = some pl := by
  cases h1 : findByte (fun b => b == 32) cap with
  | none =>
    simp only [commandParams, h1] at h
    simp only [ParseResult.ok.injEq] at h
    subst h
    simp at hp
  | some i =>
    cases h2 : parseParams (cap.drop (i + 1)) with
    | none => simp [commandParams, h1, h2] at h
    | some params =>
      simp only [commandParams, h1, h2] at h
      simp only [ParseResult.ok.injEq] at h
      subst h
      simp at hp
      exact ⟨cap.drop (i + 1), by rw [h2, hp]⟩

lemma parseParams_dropLast (ps : List Nat) (pl : List (List Nat))
    (h : parseParams ps = some pl) :
    ∀ x ∈ pl.dropLast,
      x ≠ [] ∧ x.head? ≠ some 58 ∧ ∀ a ∈ x, isAsciiWhitespace a = false := by
  intro x hx
  cases h1 : findByte (fun b => b == 58) ps with
  | none =>
    simp only [parseParams, h1] at h
    obtain rfl : splitAsciiWhitespace ps = pl := by simpa using h
    have hx2 : x ∈ splitAsciiWhitespace ps := (List.dropLast_sublist _).subset hx
    obtain ⟨hne, hmem⟩ := mem_splitAsciiWhitespace ps x hx2
    refine ⟨hne, ?_, mem_splitAsciiWhitespace_not_ws ps x hx2⟩
    intro hhead
    have h58 := hmem 58 (mem_of_head?_eq x 58 hhead)
    have := findByte_none _ _ h1 58 h58
    simp at this
  | some n =>
    cases n with
    | zero =>
      simp only [parseParams, h1] at h
      obtain rfl : [ps.drop 1] = pl := by simpa using h
      simp at hx
    | succ l =>
      cases h2 : isContinuationByte (ps.getD l 0) with
      | true =>
        simp only [parseParams, h1, h2] at h
        simp at h
      | false =>
        simp only [parseParams, h1, h2] at h
        simp at h
        obtain rfl : splitAsciiWhitespace (ps.take l) ++ [ps.drop (l + 2)] = pl := h
        rw [dropLast_singleton_append] at hx
        obtain ⟨hne, hmem⟩ := mem_splitAsciiWhitespace _ x hx
        refine ⟨hne, ?_, mem_splitAsciiWhitespace_not_ws _ x hx⟩
        intro hhead
        have h58 := hmem 58 (mem_of_head?_eq x 58 hhead)
        have hsub : ps.take l ⊆ ps.take (l + 1) := by
          intro a ha
          have e : (ps.take (l + 1)).take l = ps.take l := by
            rw [List.take_take, Nat.min_eq_left (Nat.le_succ l)]
          rw [← e] at ha
          exact List.take_subset _ _ ha
        have := findByte_take _ _ _ h1 58 (hsub h58)
        simp at this

lemma parsePfx_eq_pfxSpec (block : List Nat) :
    parsePfx (58 :: block) = pfxSpec block := by
  have hd : (58 :: block).drop 1 = block := rfl
  unfold parsePfx pfxSpec
  rw [hd]
  rcases hp : splitOnPred (fun b => b == 33 || b == 64) block with
    _ | ⟨a, _ | ⟨b, _ | ⟨c, _ | ⟨d, tl⟩⟩⟩⟩ <;> simp [hp]

lemma parse_no_marker (message : List Nat) (hne : message ≠ [])
    (h64 : message.head? ≠ some 64) (h58 : message.head? ≠ some 58) :
    parse message = commandParams none none message := by
  have h1 : tagsStage message = .next (none, message) := by
    unfold tagsStage
    rw [if_neg h64]
  have h2 : pfxStage message = .next (none, message) := by
    unfold pfxStage
    rw [if_neg h58]
  unfold parse
  rw [if_neg (by simp [hne])]
  simp only [h1, h2]

lemma commandParams_append (t : Option Tags) (p : Option Pfx)
    (cmd ps : List Nat) (h32 : 32 ∉ cmd) :
    commandParams t p (cmd ++ 32 :: ps) =
      match parseParams ps with
      | none => .panicked
      | some pr => .ok ⟨t, p, some cmd, some pr⟩ := by
  have hf : findByte (fun b => b == 32) (cmd ++ 32 :: ps) = some cmd.length :=
    findByte_append _ _ _ _
      (fun a ha => beq_eq_false_iff_ne.mpr (fun e => h32 (e ▸ ha))) rfl
  have htake : (cmd ++ 32 :: ps).take cmd.length = cmd := List.take_left cmd _
  have hdrop : (cmd ++ 32 :: ps).drop (cmd.length + 1) = ps := by
    have e : cmd ++ 32 :: ps = (cmd ++ [32]) ++ ps := by simp
    have e2 : (cmd ++ [32]).length = cmd.length + 1 := by simp
    rw [e, ← e2, List.drop_left]
  unfold commandParams
  rw [hf]
  simp only [hdrop, htake]

-- ### Claim theorems

/-- Claim C1.  The claim says `parse` never panics on any input, including
tag entries that contain no `'='` character.  It is false on the code: the
input `"@tag CMD"` has a well-formed-looking tag block whose single entry
`tag` has no `'='`, and the second `kv.next().unwrap()` at line 76 of the
source panics there.  This theorem evaluates the embedded code at that
failing input. -/
theorem c1_parse_panics_on_tag_without_eq :
    parse (asciiBytes "@tag CMD") = .panicked := by decide

/-- Claim C2.  The claim says a tag entry is split at its first `'='` only,
so `key=a=b` stores the value `a=b`.  It is false on the code: `split('=')`
splits at every `'='` and only the first two pieces are consumed, so the
stored value is `a` and the trailing `=b` is lost.  This theorem evaluates
the embedded code at the input `"@key=a=b CMD"`. -/
theorem c2_tag_value_truncated_at_second_eq :
    parse (asciiBytes "@key=a=b CMD") =
      .ok ⟨some [(asciiBytes "key", some (asciiBytes "a"))], none,
        some (asciiBytes "CMD"), none⟩ ∧
    asciiBytes "a" ≠ asciiBytes "a=b" := by decide

/-- Claim C3.  The claim says a valueless tag written `flag=` and a bare
tag `flag` are represented identically, both as the key with an absent
value.  The first half is true on the code (`flag=` stores an absent
value), but the bare tag panics instead of being normalised, so the two
spellings are not represented identically. -/
theorem c3_bare_tag_panics_not_normalized :
    parse (asciiBytes "@flag= X") =
      .ok ⟨some [(asciiBytes "flag", none)], none, some (asciiBytes "X"), none⟩ ∧
    parse (asciiBytes "@flag X") = .panicked := by decide

/-- Claim C4.  The claim says `parse` returns `Ok` on every non-empty
input in which a detected tag or prefix block is followed by a space.  It
is false on the code: `"@x;y=1 CMD"` is non-empty and contains a space
after the tag block, yet the code panics on the bare entry `x` instead of
returning `Ok`. -/
theorem c4_panic_beyond_two_error_cases :
    parse (asciiBytes "@x;y=1 CMD") = .panicked ∧
    asciiBytes "@x;y=1 CMD" ≠ [] ∧
    (32 : Nat) ∈ asciiBytes "@x;y=1 CMD" := by decide

/-- Claim C5.  When a `':'`-initiated prefix block (the part up to the
next space) is present, the prefix is determined by splitting the block at
`'!'`/`'@'`: exactly 1 part gives `Servername`, exactly 3 parts give
`Nick`, any other count gives no prefix, and parsing always continues to
the command without an error.  `pfxSpec` is that arity rule written from
the specification text; the theorem shows `parse` follows it. -/
theorem c5_prefix_arity_rule (block rest : List Nat) (h32 : 32 ∉ block) :
    parse (58 :: (block ++ 32 :: rest)) = commandParams none (pfxSpec block) rest ∧
    commandParams none (pfxSpec block) rest ≠ .err .emptyInput ∧
    commandParams none (pfxSpec block) rest ≠ .err .missingCommand := by
  refine ⟨?_, commandParams_ne_err _ _ _ _, commandParams_ne_err _ _ _ _⟩
  have hmsg : (58 :: (block ++ 32 :: rest) : List Nat) = (58 :: block) ++ 32 :: rest := by
    simp
  have hf : findByte (fun b => b == 32) ((58 :: block) ++ 32 :: rest) =
      some (58 :: block).length :=
    findByte_append _ _ _ _
      (by
        intro a ha
        rcases List.mem_cons.mp ha with rfl | ha
        · rfl
        · exact beq_eq_false_iff_ne.mpr (fun e => h32 (e ▸ ha)))
      rfl
  have ht : ((58 :: block) ++ 32 :: rest).take (58 :: block).length = 58 :: block :=
    List.take_left _ _
  have hd : ((58 :: block) ++ 32 :: rest).drop ((58 :: block).length + 1) = rest := by
    have e : (58 :: block) ++ 32 :: rest = ((58 :: block) ++ [32]) ++ rest := by simp
    have e2 : ((58 :: block) ++ [32]).length = (58 :: block).length + 1 := by simp
    rw [e, ← e2, List.drop_left]
  have h1 : tagsStage (58 :: (block ++ 32 :: rest)) =
      .next (none, 58 :: (block ++ 32 :: rest)) := by
    unfold tagsStage
    rw [if_neg (by simp)]
  have h2 : pfxStage (58 :: (block ++ 32 :: rest)) =
      .next (parsePfx (58 :: block), rest) := by
    unfold pfxStage
    rw [if_pos (by simp), hmsg, hf]
    simp only [ht, hd]
  unfold parse
  rw [if_neg (by simp)]
  simp only [h1, h2, parsePfx_eq_pfxSpec]

/-- Witness for C5 at the concrete two-part block `a!b` and remainder `X`. -/
theorem c5_prefix_arity_rule_witness :
    parse (58 :: (asciiBytes "a!b" ++ 32 :: asciiBytes "X")) =
      commandParams none (pfxSpec (asciiBytes "a!b")) (asciiBytes "X") ∧
    commandParams none (pfxSpec (asciiBytes "a!b")) (asciiBytes "X") ≠ .err .emptyInput ∧
    commandParams none (pfxSpec (asciiBytes "a!b")) (asciiBytes "X") ≠ .err .missingCommand :=
  c5_prefix_arity_rule (asciiBytes "a!b") (asciiBytes "X") (by decide)

/-- Counterexample to C6 as stated: in `"CMD ab:c"` the first colon of the
parameter string `ab:c` is at position 2 and is not preceded by a space,
yet the code still removes the byte before the colon, so the middle param
is `a`, not the `ab` the claim requires. -/
theorem c6_counterexample_byte_before_colon :
    parse (asciiBytes "CMD ab:c") =
      .ok ⟨none, none, some (asciiBytes "CMD"), some [asciiBytes "a", asciiBytes "c"]⟩ ∧
    asciiBytes "a" ≠ asciiBytes "ab" := by decide

/-- Claim C6 as amended.  When the parameter string has its first `':'` at
position `l + 1 > 0` and the byte at position `l` is not a UTF-8
continuation byte, the substring strictly before the colon with its final
byte removed — the separating space in well-formed input, but removed
unconditionally — is split at runs of ASCII whitespace into the middle
params, and the substring after the colon is appended verbatim as the one
final trailing param. -/
theorem c6_amended_param_split (cmd ps : List Nat) (l : Nat)
    (h32 : 32 ∉ cmd)
    (h64 : (cmd ++ 32 :: ps).head? ≠ some 64)
    (h58 : (cmd ++ 32 :: ps).head? ≠ some 58)
    (hfind : findByte (fun b => b == 58) ps = some (l + 1))
    (hbyte : isContinuationByte (ps.getD l 0) = false) :
    parse (cmd ++ 32 :: ps) =
      .ok ⟨none, none, some cmd,
        some (splitAsciiWhitespace (ps.take l) ++ [ps.drop (l + 2)])⟩ := by
  rw [parse_no_marker _ (by simp) h64 h58, commandParams_append _ _ _ _ h32]
  simp only [parseParams, hfind, hbyte]
  simp

/-- Witness for the amended C6 at `"CMD x :y"`: the middle param is `x`
and the trailing param is `y`. -/
theorem c6_amended_param_split_witness :
    parse (asciiBytes "CMD" ++ 32 :: asciiBytes "x :y") =
      .ok ⟨none, none, some (asciiBytes "CMD"),
        some [asciiBytes "x", asciiBytes "y"]⟩ :=
  (c6_amended_param_split (asciiBytes "CMD") (asciiBytes "x :y") 1
    (by decide) (by decide) (by decide) (by decide) (by decide)).trans (by decide)

/-- Claim C7.  When the parameter string has `':'` at position 0, the
whole remainder after that colon — possibly empty, possibly containing
spaces and further colons — is the single element of `params`; and the
concrete example `parse "PING :tmi.twitch.tv"` gives command `PING`,
params `["tmi.twitch.tv"]`, and absent tags and prefix. -/
theorem c7_colon_at_start_single_trailing :
    (∀ cmd ps : List Nat, 32 ∉ cmd →
      (cmd ++ 32 :: 58 :: ps).head? ≠ some 64 →
      (cmd ++ 32 :: 58 :: ps).head? ≠ some 58 →
      parse (cmd ++ 32 :: 58 :: ps) = .ok ⟨none, none, some cmd, some [ps]⟩) ∧
    parse (asciiBytes "PING :tmi.twitch.tv") =
      .ok ⟨none, none, some (asciiBytes "PING"),
        some [asciiBytes "tmi.twitch.tv"]⟩ := by
  constructor
  · intro cmd ps h32 h64 h58
    rw [parse_no_marker _ (by simp) h64 h58, commandParams_append _ _ _ _ h32]
    simp [parseParams, findByte]
  · decide

/-- Witness for C7: a trailing param containing an embedded space. -/
theorem c7_colon_at_start_single_trailing_witness :
    parse (asciiBytes "X" ++ 32 :: 58 :: asciiBytes "a b") =
      .ok ⟨none, none, some (asciiBytes "X"), some [asciiBytes "a b"]⟩ :=
  c7_colon_at_start_single_trailing.1 (asciiBytes "X") (asciiBytes "a b")
    (by decide) (by decide) (by decide)

/-- Claim C8.  On every input where `parse` succeeds with `params`
present, every element of the params list except possibly the last is a
non-empty byte string that does not start with `':'` and contains no
ASCII whitespace byte at all — in particular no embedded space; only the
last element may be empty or contain embedded spaces. -/
theorem c8_middle_params_nonempty_no_colon (input : List Nat) (msg : Message)
    (pl : List (List Nat)) (h1 : parse input = .ok msg)
    (h2 : msg.params = some pl) :
    ∀ x ∈ pl.dropLast,
      x ≠ [] ∧ x.head? ≠ some 58 ∧ ∀ a ∈ x, isAsciiWhitespace a = false := by
  obtain ⟨t, p, cap, hcp⟩ := parse_ok_exists input msg h1
  obtain ⟨ps, hps⟩ := commandParams_ok_params _ _ _ _ _ hcp h2
  exact parseParams_dropLast ps pl hps

/-- Witness for C8 at `"A b :c"`, whose params are `["b", "c"]`: the
non-last param `b` (byte 98) is non-empty, does not start with `':'`, and
byte 98 is not ASCII whitespace. -/
theorem c8_middle_params_nonempty_no_colon_witness :
    asciiBytes "b" ≠ [] ∧ (asciiBytes "b").head? ≠ some 58 ∧
    isAsciiWhitespace 98 = false := by
  have h := c8_middle_params_nonempty_no_colon (asciiBytes "A b :c")
    ⟨none, none, some (asciiBytes "A"), some [asciiBytes "b", asciiBytes "c"]⟩
    [asciiBytes "b", asciiBytes "c"] (by decide) (by decide)
    (asciiBytes "b") (by decide)
  exact ⟨h.1, h.2.1, h.2.2 98 (by decide)⟩

/-- Claim C9.  On every input where `parse` returns `Ok`, the `command`
field is present, although declared optional; it may however be the empty
string, as on the input consisting of a single space. -/
theorem c9_command_always_some :
    (∀ (input : List Nat) (msg : Message), parse input = .ok msg →
      msg.command.isSome = true) ∧
    parse (asciiBytes " ") = .ok ⟨none, none, some [], some []⟩ := by
  constructor
  · intro input msg h
    obtain ⟨t, p, cap, hcp⟩ := parse_ok_exists input msg h
    exact commandParams_ok_command _ _ _ _ hcp
  · decide

/-- Witness for C9 at the concrete input `"PRIVMSG"`. -/
theorem c9_command_always_some_witness :
    parse (asciiBytes "PRIVMSG") =
      .ok ⟨none, none, some (asciiBytes "PRIVMSG"), none⟩ ∧
    (Message.mk none none (some (asciiBytes "PRIVMSG")) none).command.isSome = true :=
  ⟨by decide, c9_command_always_some.1 (asciiBytes "PRIVMSG") _ (by decide)⟩

/-- Claim C10.  When the command token is followed by a space and the rest
of the line is all whitespace (hence contains no `':'`), the result has
`params` present but containing zero elements; concretely
`parse "CMD "` succeeds with `params = Some([])`. -/
theorem c10_empty_params_list :
    parse (asciiBytes "CMD ") =
      .ok ⟨none, none, some (asciiBytes "CMD"), some []⟩ ∧
    (∀ (t : Option Tags) (p : Option Pfx) (cmd ps : List Nat), 32 ∉ cmd →
      (∀ b ∈ ps, isAsciiWhitespace b = true) →
      commandParams t p (cmd ++ 32 :: ps) = .ok ⟨t, p, some cmd, some []⟩) := by
  constructor
  · decide
  · intro t p cmd ps h32 hws
    rw [commandParams_append _ _ _ _ h32]
    have hn : findByte (fun b => b == 58) ps = none :=
      findByte_none_of_all _ _ (by
        intro a ha
        have hwa := hws a ha
        refine beq_eq_false_iff_ne.mpr ?_
        intro e
        subst e
        simp [isAsciiWhitespace] at hwa)
    simp only [parseParams, hn, splitAsciiWhitespace_of_all ps hws]

/-- Witness for C10 with a space-plus-tab remainder. -/
theorem c10_empty_params_list_witness :
    commandParams none none (asciiBytes "C" ++ 32 :: [32, 9]) =
      .ok ⟨none, none, some (asciiBytes "C"), some []⟩ :=
  c10_empty_params_list.2 none none (asciiBytes "C") [32, 9]
    (by decide) (by decide)
